import Mathlib

/-
Verification of the smartdispatch repository (bouthilx/smartdispatch).

Shallow embedding of the two source files
  src/smartdispatch/utils.py        (chunks, walltime_to_seconds, jobname_generator)
  src/scripts/smart_dispatch.py     (main, _gen_job_paths, get_job_folders,
                                     create_job_folders)
together with theorems settling the claims C1..C10 about them.

Modelling conventions:
  - Python strings are modelled as Lean String where only equality matters and
    as List Char where the claims need length or character reasoning.
  - Python integer arithmetic int(math.ceil(a / float(b))) is modelled by the
    exact natural ceiling division ceilDiv a b; the float detour in the source
    is exact for every realistic command count.
  - Python exceptions are modelled with Except String; the error string names
    the exception raised by the source.
  - The filesystem, as far as these claims observe it (os.path.exists and
    os.makedirs on the two per-batch directories), is modelled as the list of
    existing directory paths.
-/

namespace SmartDispatch

/-- Ceiling division on naturals: the value of int(math.ceil(a / float(b)))
for b > 0.  For b = 0 Python raises ZeroDivisionError; the callers below
surface that case through Except before using this function. -/
def ceilDiv (a b : Nat) : Nat := (a + b - 1) / b

/-- Iteration core of utils.chunks.  The Python generator yields the slices
sequence[i:i+n] for i in range(0, len(sequence), n); each iteration consumes
n elements, so len(sequence) iterations always suffice when n >= 1, and the
fuel argument carries that bound structurally.  For n = 0 the Python range
call raises ValueError; no caller in the repository passes n = 0 and the
claims all assume n > 0, so that case is mapped to no chunks at all. -/
def chunksFuel : Nat → List α → Nat → List (List α)
  | 0, _, _ => []
  | fuel + 1, sequence, n =>
    if sequence.isEmpty || n == 0 then []
    else sequence.take n :: chunksFuel fuel (sequence.drop n) n

/-- utils.chunks: yield successive n-sized chunks from sequence. -/
def chunks (sequence : List α) (n : Nat) : List (List α) :=
  chunksFuel sequence.length sequence n

theorem chunksFuel_flatten {α : Type u_1} (n : Nat) (hn : n ≠ 0) :
    ∀ (fuel : Nat) (s : List α), s.length ≤ fuel →
      (chunksFuel fuel s n).flatten = s := by
  intro fuel
  induction fuel with
  | zero =>
    intro s hs
    have hnil : s = [] := List.eq_nil_of_length_eq_zero (Nat.le_zero.mp hs)
    subst hnil
    rfl
  | succ fuel ih =>
    intro s hs
    by_cases hse : s = []
    · subst hse; rfl
    · have hcond : (s.isEmpty || n == 0) = false := by
        simp [List.isEmpty_iff, hse, hn]
      simp only [chunksFuel, hcond, Bool.false_eq_true, if_false]
      rw [List.flatten_cons, ih (s.drop n) ?_, List.take_append_drop]
      have hpos : 0 < s.length := List.length_pos.mpr hse
      have hd : (s.drop n).length = s.length - n := s.length_drop n
      omega

/-- Concatenating the chunks in order gives back the sequence. -/
theorem chunks_flatten {α : Type u_1} (s : List α) (n : Nat) (hn : 0 < n) :
    (chunks s n).flatten = s :=
  chunksFuel_flatten n (by omega) s.length s le_rfl

theorem chunksFuel_mem_length_le {α : Type u_1} (n : Nat) :
    ∀ (fuel : Nat) (s : List α), ∀ g ∈ chunksFuel fuel s n, g.length ≤ n := by
  intro fuel
  induction fuel with
  | zero => intro s g hg; simp [chunksFuel] at hg
  | succ fuel ih =>
    intro s g hg
    simp only [chunksFuel] at hg
    by_cases hcond : (s.isEmpty || n == 0) = true
    · rw [if_pos hcond] at hg; simp at hg
    · rw [if_neg hcond, List.mem_cons] at hg
      rcases hg with hg | hg
      · subst hg
        rw [s.length_take n]
        exact min_le_left _ _
      · exact ih (s.drop n) g hg

/-- Every group produced by chunks has size at most n. -/
theorem chunks_mem_length_le {α : Type u_1} (s : List α) (n : Nat) :
    ∀ g ∈ chunks s n, g.length ≤ n :=
  chunksFuel_mem_length_le n s.length s

theorem chunksFuel_mem_ne_nil {α : Type u_1} (n : Nat) :
    ∀ (fuel : Nat) (s : List α), ∀ g ∈ chunksFuel fuel s n, g ≠ [] := by
  intro fuel
  induction fuel with
  | zero => intro s g hg; simp [chunksFuel] at hg
  | succ fuel ih =>
    intro s g hg
    simp only [chunksFuel] at hg
    by_cases hcond : (s.isEmpty || n == 0) = true
    · rw [if_pos hcond] at hg; simp at hg
    · rw [if_neg hcond, List.mem_cons] at hg
      simp only [Bool.or_eq_true, beq_iff_eq, List.isEmpty_iff, not_or] at hcond
      rcases hg with hg | hg
      · subst hg
        intro hnil
        rcases List.take_eq_nil_iff.mp hnil with h0 | h0
        · exact hcond.2 h0
        · exact hcond.1 h0
      · exact ih (s.drop n) g hg

/-- Every group produced by chunks is nonempty. -/
theorem chunks_mem_ne_nil {α : Type u_1} (s : List α) (n : Nat) :
    ∀ g ∈ chunks s n, g ≠ [] :=
  chunksFuel_mem_ne_nil n s.length s

theorem chunksFuel_ne_nil {α : Type u_1} (n : Nat) (hn : n ≠ 0) :
    ∀ (fuel : Nat) (s : List α), s ≠ [] → s.length ≤ fuel →
      chunksFuel fuel s n ≠ [] := by
  intro fuel s hs hlen
  cases fuel with
  | zero =>
    have : 0 < s.length := List.length_pos.mpr hs
    omega
  | succ fuel =>
    have hcond : (s.isEmpty || n == 0) = false := by
      simp [List.isEmpty_iff, hs, hn]
    simp [chunksFuel, hcond]

theorem chunksFuel_dropLast_full {α : Type u_1} (n : Nat) (hn : n ≠ 0) :
    ∀ (fuel : Nat) (s : List α), s.length ≤ fuel →
      ∀ g ∈ (chunksFuel fuel s n).dropLast, g.length = n := by
  intro fuel
  induction fuel with
  | zero => intro s hlen g hg; simp [chunksFuel] at hg
  | succ fuel ih =>
    intro s hlen g hg
    simp only [chunksFuel] at hg
    by_cases hcond : (s.isEmpty || n == 0) = true
    · rw [if_pos hcond] at hg; simp at hg
    · rw [if_neg hcond] at hg
      simp only [Bool.or_eq_true, beq_iff_eq, List.isEmpty_iff, not_or] at hcond
      have hpos : 0 < s.length := List.length_pos.mpr hcond.1
      have hdlen : (s.drop n).length = s.length - n := s.length_drop n
      by_cases hrest : s.drop n = []
      · rw [hrest] at hg
        have hfuel0 : chunksFuel fuel ([] : List α) n = [] := by
          cases fuel <;> simp [chunksFuel]
        rw [hfuel0] at hg
        simp at hg
      · have hne : chunksFuel fuel (s.drop n) n ≠ [] :=
          chunksFuel_ne_nil n hn fuel (s.drop n) hrest (by omega)
        rw [List.dropLast_cons_of_ne_nil hne, List.mem_cons] at hg
        rcases hg with hg | hg
        · subst hg
          have hgt : n < s.length := by
            by_contra hle
            exact hrest (List.drop_eq_nil_of_le (by omega))
          rw [s.length_take n]
          omega
        · exact ih (s.drop n) (by omega) g hg

/-- Every group produced by chunks, except possibly the last one, has size
exactly n. -/
theorem chunks_dropLast_full {α : Type u_1} (s : List α) (n : Nat)
    (hn : 0 < n) : ∀ g ∈ (chunks s n).dropLast, g.length = n :=
  chunksFuel_dropLast_full n (by omega) s.length s le_rfl

theorem ceilDiv_le_iff {a n m : Nat} (hn : 0 < n) :
    ceilDiv a n ≤ m ↔ a ≤ n * m := by
  unfold ceilDiv
  rw [Nat.div_le_iff_le_mul_add_pred hn]
  omega

theorem le_mul_ceilDiv (a n : Nat) (hn : 0 < n) : a ≤ n * ceilDiv a n :=
  (ceilDiv_le_iff hn).mp le_rfl

theorem ceilDiv_pos {a n : Nat} (ha : 0 < a) (hn : 0 < n) :
    0 < ceilDiv a n := by
  by_contra h
  have h0 : ceilDiv a n ≤ 0 := by omega
  have := (ceilDiv_le_iff hn).mp h0
  omega

theorem ceilDiv_anti {a n n' : Nat} (hn : 0 < n) (hle : n ≤ n') :
    ceilDiv a n' ≤ ceilDiv a n := by
  have hn' : 0 < n' := by omega
  rw [ceilDiv_le_iff hn']
  calc a ≤ n * ceilDiv a n := le_mul_ceilDiv a n hn
    _ ≤ n' * ceilDiv a n := Nat.mul_le_mul_right _ hle

theorem ceilDiv_ceilDiv_le {a n : Nat} (ha : 0 < a) (hn : 0 < n) :
    ceilDiv a (ceilDiv a n) ≤ n := by
  rw [ceilDiv_le_iff (ceilDiv_pos ha hn)]
  rw [Nat.mul_comm]
  exact le_mul_ceilDiv a n hn

/-- Re-balancing is idempotent on job counts: applying the ceiling division
to its own re-balanced chunk size gives back the original job count. -/
theorem ceilDiv_rebalance (a k : Nat) (ha : 0 < a) (hk : 0 < k) :
    ceilDiv a (ceilDiv a (ceilDiv a k)) = ceilDiv a k := by
  have h1 : 0 < ceilDiv a k := ceilDiv_pos ha hk
  have h2 : 0 < ceilDiv a (ceilDiv a k) := ceilDiv_pos ha h1
  apply Nat.le_antisymm
  · exact ceilDiv_ceilDiv_le ha h1
  · have h3 : ceilDiv a (ceilDiv a k) ≤ k := ceilDiv_ceilDiv_le ha hk
    exact ceilDiv_anti h2 h3

theorem ceilDiv_step (len n : Nat) (h1 : 1 ≤ len) (hn : 1 ≤ n) :
    ceilDiv len n = 1 + ceilDiv (len - n) n := by
  by_cases hle : len ≤ n
  · have hz : len - n = 0 := by omega
    rw [hz]
    unfold ceilDiv
    have hr : (0 + n - 1) / n = 0 := Nat.div_eq_of_lt (by omega)
    rw [hr]
    have : (len + n - 1) / n = 1 := by
      apply Nat.div_eq_of_lt_le <;> omega
    omega
  · unfold ceilDiv
    have hsplit : len + n - 1 = (len - n) + n - 1 + n := by omega
    rw [hsplit, Nat.add_div_right _ (by omega)]
    omega

theorem chunksFuel_length (n : Nat) (hn : n ≠ 0) :
    ∀ (fuel : Nat) (s : List α), s.length ≤ fuel →
      (chunksFuel fuel s n).length = ceilDiv s.length n := by
  intro fuel
  induction fuel with
  | zero =>
    intro s hlen
    have hnil : s = [] := List.eq_nil_of_length_eq_zero (Nat.le_zero.mp hlen)
    subst hnil
    simp [chunksFuel, ceilDiv, Nat.div_eq_of_lt (by omega : n - 1 < n)]
  | succ fuel ih =>
    intro s hlen
    by_cases hse : s = []
    · subst hse
      simp [chunksFuel, ceilDiv, Nat.div_eq_of_lt (by omega : n - 1 < n)]
    · have hcond : (s.isEmpty || n == 0) = false := by
        simp [List.isEmpty_iff, hse, hn]
      have hpos : 0 < s.length := List.length_pos.mpr hse
      have hdlen : (s.drop n).length = s.length - n := s.length_drop n
      simp only [chunksFuel, hcond, Bool.false_eq_true, if_false,
        List.length_cons]
      rw [ih (s.drop n) (by omega), hdlen,
        ceilDiv_step s.length n (by omega) (by omega)]
      omega

/-- The number of groups produced by chunks is the ceiling of the sequence
length divided by the chunk size. -/
theorem chunks_length {α : Type u_1} (s : List α) (n : Nat) (hn : 0 < n) :
    (chunks s n).length = ceilDiv s.length n :=
  chunksFuel_length n (by omega) s.length s le_rfl

/-- Claim C2 (confirmed): for every sequence and every chunk size n > 0,
concatenating the groups produced by chunks(sequence, n) in order reproduces
the original sequence exactly, with no reordering and no element added or
dropped. -/
theorem chunks_concat_id {α : Type u_1} (sequence : List α) (n : Nat)
    (hn : 0 < n) : (chunks sequence n).flatten = sequence :=
  chunks_flatten sequence n hn

/-- Witness for C2 at a concrete input. -/
theorem chunks_concat_id_witness :
    (chunks ["echo a", "echo b", "echo c"] 2).flatten
      = ["echo a", "echo b", "echo c"] :=
  chunks_concat_id ["echo a", "echo b", "echo c"] 2 (by decide)

/-- Distribution step of smart_dispatch.main (lines 79-85):
nb_commands = len(commands); nb_jobs = int(math.ceil(nb_commands /
float(args.nbCommandsPerNode))); nb_commands_per_file = int(math.ceil(
nb_commands / float(nb_jobs))); then the groups are utils.chunks(commands,
n=nb_commands_per_file).  Python raises ZeroDivisionError when the divisor
of a float division is zero, which happens for nb_jobs exactly when
nb_commands = 0. -/
def mainDistribute (commands : List String) (nbCommandsPerNode : Nat) :
    Except String (List (List String)) :=
  let nb_commands := commands.length
  if nbCommandsPerNode = 0 then
    .error "ZeroDivisionError: float division by zero"
  else
    let nb_jobs := ceilDiv nb_commands nbCommandsPerNode
    if nb_jobs = 0 then
      .error "ZeroDivisionError: float division by zero"
    else
      let nb_commands_per_file := ceilDiv nb_commands nb_jobs
      .ok (chunks commands nb_commands_per_file)

/-- Counterexample for C1: ten commands with commands_per_job = 4 give
nb_jobs = 3 and commands_per_group = 4, and the chunking yields groups of
sizes 4, 4 and 2 - two of the groups differ in size by 2, not at most 1. -/
theorem main_chunking_not_balanced :
    mainDistribute (List.replicate 10 "cmd") 4
      = .ok [List.replicate 4 "cmd", List.replicate 4 "cmd",
             List.replicate 2 "cmd"] ∧
    ¬ (∀ g1 ∈ [List.replicate 4 "cmd", List.replicate 4 "cmd",
               List.replicate 2 "cmd"],
       ∀ g2 ∈ [List.replicate 4 "cmd", List.replicate 4 "cmd",
               List.replicate 2 "cmd"],
       g1.length ≤ g2.length + 1) :=
  ⟨rfl, by decide⟩

/-- Claim C1 (corrected): for nb_commands >= 1 and commands_per_job > 0,
main computes nb_jobs = ceil(nb_commands / commands_per_job) and
commands_per_group = ceil(nb_commands / nb_jobs) and chunks the commands
into groups of size at most commands_per_group; every group except possibly
the last has size exactly commands_per_group.  The further clause of the
claim, that all group sizes differ by at most 1, is refuted by
main_chunking_not_balanced. -/
theorem main_chunking_groups (commands : List String) (k : Nat)
    (h1 : 1 ≤ commands.length) (hk : 0 < k) :
    mainDistribute commands k
        = .ok (chunks commands
            (ceilDiv commands.length (ceilDiv commands.length k))) ∧
    (∀ g ∈ chunks commands
        (ceilDiv commands.length (ceilDiv commands.length k)),
      g.length ≤ ceilDiv commands.length (ceilDiv commands.length k)) ∧
    (∀ g ∈ (chunks commands
        (ceilDiv commands.length (ceilDiv commands.length k))).dropLast,
      g.length = ceilDiv commands.length (ceilDiv commands.length k)) := by
  have hjobs : 0 < ceilDiv commands.length k := ceilDiv_pos h1 hk
  have hcpg : 0 < ceilDiv commands.length (ceilDiv commands.length k) :=
    ceilDiv_pos h1 hjobs
  refine ⟨?_, chunks_mem_length_le _ _, chunks_dropLast_full _ _ hcpg⟩
  have hk0 : ¬ (k = 0) := by omega
  have hj0 : ¬ (ceilDiv commands.length k = 0) := by omega
  simp [mainDistribute, hk0, hj0]

/-- Witness for C1 at a concrete input. -/
theorem main_chunking_groups_witness :
    mainDistribute ["echo a", "echo b", "echo c"] 2
        = .ok (chunks ["echo a", "echo b", "echo c"]
            (ceilDiv 3 (ceilDiv 3 2))) ∧
    (∀ g ∈ chunks ["echo a", "echo b", "echo c"] (ceilDiv 3 (ceilDiv 3 2)),
      g.length ≤ ceilDiv 3 (ceilDiv 3 2)) ∧
    (∀ g ∈ (chunks ["echo a", "echo b", "echo c"]
        (ceilDiv 3 (ceilDiv 3 2))).dropLast,
      g.length = ceilDiv 3 (ceilDiv 3 2)) :=
  main_chunking_groups ["echo a", "echo b", "echo c"] 2 (by decide) (by decide)

/-- Claim C4 (code_bug): with an empty command list, nb_jobs evaluates to 0
and the computation of nb_commands_per_file divides by zero, so main raises
ZeroDivisionError instead of producing zero groups as the specification
requires. -/
theorem main_chunking_empty_zero_division (k : Nat) (hk : 0 < k) :
    mainDistribute ([] : List String) k
      = .error "ZeroDivisionError: float division by zero" := by
  have hk0 : ¬ (k = 0) := by omega
  have hj : ceilDiv 0 k = 0 := Nat.div_eq_of_lt (by omega)
  simp [mainDistribute, hk0, hj]

/-- Witness for C4 at a concrete input. -/
theorem main_chunking_empty_zero_division_witness :
    mainDistribute ([] : List String) 24
      = .error "ZeroDivisionError: float division by zero" :=
  main_chunking_empty_zero_division 24 (by decide)

/-- Module constant LOGS_FOLDERNAME of smart_dispatch.py. -/
def LOGS_FOLDERNAME : String := "SMART_DISPATCH_LOGS"

/-- Model of os.path.join for a relative second component. -/
def pathJoin (a b : String) : String := a ++ "/" ++ b

/-- smart_dispatch._gen_job_paths: derive (path_job_logs, path_job_commands)
for a job name from the current working directory. -/
def _gen_job_paths (cwd jobname : String) : String × String :=
  let path_smartdispatch_logs := pathJoin cwd LOGS_FOLDERNAME
  let path_job := pathJoin path_smartdispatch_logs jobname
  let path_job_logs := pathJoin path_job "logs"
  let path_job_commands := pathJoin path_job "commands"
  (path_job_logs, path_job_commands)

/-- smart_dispatch.create_job_folders over a filesystem modelled as the list
of existing directory paths: each of the two directories is created by
os.makedirs only when os.path.exists reports it absent, and the function
always returns normally; Except carries the (never raised on this path)
Python exception channel. -/
def create_job_folders (fs : List String) (cwd jobname : String) :
    Except String (List String × String × String) :=
  let p := _gen_job_paths cwd jobname
  let fs1 := if p.2 ∈ fs then fs else p.2 :: fs
  let fs2 := if p.1 ∈ fs1 then fs1 else p.1 :: fs1
  .ok (fs2, p.1, p.2)

/-- smart_dispatch.get_job_folders over the same filesystem model: raise
LookupError when the commands directory of the batch UID does not exist,
otherwise recreate the logs directory when it is absent. -/
def get_job_folders (fs : List String) (cwd jobname : String) :
    Except String (List String × String × String) :=
  let p := _gen_job_paths cwd jobname
  if p.2 ∉ fs then
    .error ("LookupError: Batch UID (" ++ jobname
      ++ ") does not exist! Cannot resume.")
  else
    let fs1 := if p.1 ∈ fs then fs else p.1 :: fs
    .ok (fs1, p.1, p.2)

/-- Counterexample for C6: launching a job whose commands directory already
exists returns normally - the commands directory is reused and only the
missing logs directory is created - instead of reporting an error, so there
is no already-launched guard in create_job_folders. -/
theorem create_job_folders_existing_no_error :
    create_job_folders [(_gen_job_paths "." "exp").2] "." "exp"
        = .ok ([(_gen_job_paths "." "exp").1, (_gen_job_paths "." "exp").2],
               (_gen_job_paths "." "exp").1, (_gen_job_paths "." "exp").2) ∧
    ¬ ∃ e, create_job_folders [(_gen_job_paths "." "exp").2] "." "exp"
        = .error e := by
  refine ⟨rfl, ?_⟩
  rintro ⟨e, he⟩
  rw [show create_job_folders [(_gen_job_paths "." "exp").2] "." "exp"
      = .ok ([(_gen_job_paths "." "exp").1, (_gen_job_paths "." "exp").2],
             (_gen_job_paths "." "exp").1, (_gen_job_paths "." "exp").2)
    from rfl] at he
  exact Except.noConfusion he

/-- Claim C6 (corrected): create_job_folders has no already-launched guard.
When the commands directory of the generated batch UID already exists it
proceeds without error, leaves the commands directory as it is, creates the
logs directory only if absent, and returns the two paths. -/
theorem create_job_folders_reuses_existing (fs : List String)
    (cwd jobname : String) (h : (_gen_job_paths cwd jobname).2 ∈ fs) :
    create_job_folders fs cwd jobname
      = .ok ((if (_gen_job_paths cwd jobname).1 ∈ fs then fs
              else (_gen_job_paths cwd jobname).1 :: fs),
             (_gen_job_paths cwd jobname).1,
             (_gen_job_paths cwd jobname).2) := by
  simp only [create_job_folders, if_pos h]

/-- Witness for C6 (amended) at a concrete input. -/
theorem create_job_folders_reuses_existing_witness :
    create_job_folders [(_gen_job_paths "." "job1").2] "." "job1"
      = .ok ((if (_gen_job_paths "." "job1").1
                ∈ [(_gen_job_paths "." "job1").2]
              then [(_gen_job_paths "." "job1").2]
              else (_gen_job_paths "." "job1").1
                :: [(_gen_job_paths "." "job1").2]),
             (_gen_job_paths "." "job1").1, (_gen_job_paths "." "job1").2) :=
  create_job_folders_reuses_existing [(_gen_job_paths "." "job1").2] "."
    "job1" (by simp)

/-- Claim C7 (confirmed): get_job_folders raises its fatal LookupError
exactly when the commands directory of the named batch UID does not exist;
when that directory exists it returns normally, creating the logs directory
when absent and leaving an existing logs directory untouched. -/
theorem get_job_folders_spec (fs : List String) (cwd jobname : String) :
    ((∃ e, get_job_folders fs cwd jobname = .error e)
        ↔ (_gen_job_paths cwd jobname).2 ∉ fs) ∧
    ((_gen_job_paths cwd jobname).2 ∈ fs →
      get_job_folders fs cwd jobname
        = .ok ((if (_gen_job_paths cwd jobname).1 ∈ fs then fs
                else (_gen_job_paths cwd jobname).1 :: fs),
               (_gen_job_paths cwd jobname).1,
               (_gen_job_paths cwd jobname).2)) := by
  by_cases hc : (_gen_job_paths cwd jobname).2 ∈ fs
  · simp [get_job_folders, hc]
  · simp [get_job_folders, hc]

/-- Witness for C7 at a concrete input. -/
theorem get_job_folders_spec_witness :
    get_job_folders [(_gen_job_paths "." "job2").2] "." "job2"
      = .ok ((if (_gen_job_paths "." "job2").1
                ∈ [(_gen_job_paths "." "job2").2]
              then [(_gen_job_paths "." "job2").2]
              else (_gen_job_paths "." "job2").1
                :: [(_gen_job_paths "." "job2").2]),
             (_gen_job_paths "." "job2").1, (_gen_job_paths "." "job2").2) :=
  (get_job_folders_spec [(_gen_job_paths "." "job2").2] "." "job2").2
    (by simp)

/-- Names bound at the point where the pool branch of main constructs
CommandManager(os.path.join(qsub_directory, "commands.txt")): the module
level bindings of smart_dispatch.py and the local variables assigned
earlier in main.  The name qsub_directory is not among them - it is never
assigned anywhere in the file - so evaluating the join raises NameError. -/
def namesInScopeAtCommandManager : List String :=
  ["os", "argparse", "math", "check_output", "utils", "CommandManager",
   "PBSGenerator", "smartdispatch", "LOGS_FOLDERNAME", "AVAILABLE_QUEUES",
   "main", "parse_arguments", "_gen_job_paths", "get_job_folders",
   "create_job_folders",
   "args", "pbs", "jobname", "commands", "arguments",
   "path_job_logs", "path_job_commands"]

/-- Evaluation of the CommandManager filename argument in the pool branch:
Python resolves the name qsub_directory in the current environment and
raises NameError when it is unbound. -/
def commandManagerFileArg (env : String → Option String) :
    Except String String :=
  match env "qsub_directory" with
  | some d => .ok (pathJoin d "commands.txt")
  | none => .error "NameError: name qsub_directory is not defined"

/-- Under every environment that binds only names actually in scope at the
CommandManager construction, the filename expression raises NameError. -/
theorem commandManagerFileArg_scope_error (env : String → Option String)
    (henv : ∀ name, (env name).isSome = true
      → name ∈ namesInScopeAtCommandManager) :
    commandManagerFileArg env
      = .error "NameError: name qsub_directory is not defined" := by
  unfold commandManagerFileArg
  cases hq : env "qsub_directory" with
  | some d =>
    exfalso
    have hmem : "qsub_directory" ∈ namesInScopeAtCommandManager :=
      henv _ (by rw [hq]; rfl)
    revert hmem
    decide
  | none => rfl

/-- Claim C5 (code_bug): the pool branch never produces the queue file path
commands/commands.txt at all: the source joins commands.txt onto the
variable qsub_directory, which is bound nowhere in smart_dispatch.py, so
every environment that binds only the names actually in scope makes the
expression raise NameError instead of yielding a path. -/
theorem pool_queue_file_name_error :
    "qsub_directory" ∉ namesInScopeAtCommandManager ∧
    ∀ env : String → Option String,
      (∀ name, (env name).isSome = true
        → name ∈ namesInScopeAtCommandManager) →
      commandManagerFileArg env
        = .error "NameError: name qsub_directory is not defined" :=
  ⟨by decide, fun env henv => commandManagerFileArg_scope_error env henv⟩

/-- Witness for C5 at a concrete environment. -/
theorem pool_queue_file_name_error_witness :
    commandManagerFileArg (fun _ => none)
      = .error "NameError: name qsub_directory is not defined" :=
  pool_queue_file_name_error.2 (fun _ => none) (fun name h => by simp at h)

/-- Representative environment of a pool-mode run at the CommandManager
construction: exactly the names in scope there are bound; the bound values
are irrelevant, since only the lookup of qsub_directory is read. -/
def envPoolLaunch : String → Option String :=
  fun name =>
    if name ∈ namesInScopeAtCommandManager then some name else none

/-- Pool branch of smart_dispatch.main (lines 60-90): the branch first
constructs CommandManager(os.path.join(qsub_directory, "commands.txt")) at
line 61 - which raises NameError, qsub_directory being bound nowhere - and
only on success would replace the input command list by args.pool copies of
the worker invocation command (line 71) and hand them to the distribution
step.  The input command list plays no role before the failure point. -/
def mainPoolBranch (env : String → Option String)
    (_commands : List String) (pool : Nat) (worker_command : String)
    (k : Nat) : Except String (List (List String)) :=
  match commandManagerFileArg env with
  | .error e => .error e
  | .ok _filename => mainDistribute (List.replicate pool worker_command) k

/-- Counterexample for C3: a pool-mode run with pool = 2 and
commands_per_job = 2 on three input commands raises NameError at the
CommandManager construction and hands nothing to the script builder - in
particular not two JobGroups of one worker command each. -/
theorem pool_mode_no_groups_counterexample :
    mainPoolBranch envPoolLaunch ["echo a", "echo b", "echo c"] 2
        "smart_worker.py commands.txt logs" 2
      = .error "NameError: name qsub_directory is not defined" ∧
    ¬ ∃ groups,
        mainPoolBranch envPoolLaunch ["echo a", "echo b", "echo c"] 2
            "smart_worker.py commands.txt logs" 2
          = .ok groups ∧
        groups.length = 2 ∧ ∀ g ∈ groups, g.length = 1 := by
  refine ⟨rfl, ?_⟩
  rintro ⟨groups, hok, -, -⟩
  rw [show mainPoolBranch envPoolLaunch ["echo a", "echo b", "echo c"] 2
        "smart_worker.py commands.txt logs" 2
      = .error "NameError: name qsub_directory is not defined"
    from rfl] at hok
  exact Except.noConfusion hok

/-- Claim C3 (corrected): in pool mode the script builder receives no
JobGroups at all: for every environment binding only the names in scope at
the CommandManager construction, every input command list, every pool size
and every commands_per_job, the pool branch raises NameError - the unbound
qsub_directory of C5 - before any worker-invocation JobGroup is built. -/
theorem pool_mode_raises_name_error (env : String → Option String)
    (henv : ∀ name, (env name).isSome = true
      → name ∈ namesInScopeAtCommandManager)
    (commands : List String) (pool k : Nat) (w : String) :
    mainPoolBranch env commands pool w k
      = .error "NameError: name qsub_directory is not defined" ∧
    ¬ ∃ groups, mainPoolBranch env commands pool w k = .ok groups := by
  have h := commandManagerFileArg_scope_error env henv
  constructor
  · simp only [mainPoolBranch, h]
  · rintro ⟨groups, hok⟩
    simp only [mainPoolBranch, h] at hok
    exact Except.noConfusion hok

/-- Witness for C3 (amended) at a concrete environment and inputs. -/
theorem pool_mode_raises_name_error_witness :
    mainPoolBranch envPoolLaunch ["echo a"] 3
        "smart_worker.py commands.txt logs" 24
      = .error "NameError: name qsub_directory is not defined" ∧
    ¬ ∃ groups,
        mainPoolBranch envPoolLaunch ["echo a"] 3
            "smart_worker.py commands.txt logs" 24
          = .ok groups :=
  pool_mode_raises_name_error envPoolLaunch
    (fun name h => by
      by_cases hm : name ∈ namesInScopeAtCommandManager
      · exact hm
      · simp [envPoolLaunch, hm] at h)
    ["echo a"] 3 24 "smart_worker.py commands.txt logs"

/-- Digit extraction for the decimal rendering of a natural number, most
significant digit first; the fuel bounds the recursion depth and any fuel
of at least n steps gives the full rendering of n. -/
def pyStrNatAux : Nat → Nat → List Char
  | 0, _ => []
  | fuel + 1, n =>
    if n = 0 then []
    else pyStrNatAux fuel (n / 10) ++ [Nat.digitChar (n % 10)]

/-- Model of the Python decimal rendering str(i) of a natural number. -/
def pyStrNat (n : Nat) : String :=
  ⟨if n = 0 then ['0'] else pyStrNatAux n n⟩

theorem pyStrNatAux_eq (fuel : Nat) :
    ∀ n, n ≤ fuel →
      pyStrNatAux fuel n = ((Nat.digits 10 n).map Nat.digitChar).reverse := by
  induction fuel with
  | zero =>
    intro n hn
    have hn0 : n = 0 := by omega
    subst hn0
    simp [pyStrNatAux]
  | succ fuel ih =>
    intro n hn
    by_cases hn0 : n = 0
    · subst hn0
      simp [pyStrNatAux]
    · have hlt : n / 10 < n := Nat.div_lt_self (Nat.pos_of_ne_zero hn0)
        (by norm_num)
      rw [pyStrNatAux, if_neg hn0, ih (n / 10) (by omega),
        Nat.digits_def' (by norm_num : (1 : Nat) < 10)
          (Nat.pos_of_ne_zero hn0)]
      simp

theorem pyStrNat_data (n : Nat) :
    (pyStrNat n).data
      = if n = 0 then ['0']
        else ((Nat.digits 10 n).map Nat.digitChar).reverse := by
  by_cases hn : n = 0
  · simp [pyStrNat, hn]
  · simp [pyStrNat, hn, pyStrNatAux_eq n n le_rfl]

theorem digitChar_inj_lt10 :
    ∀ a < 10, ∀ b < 10, Nat.digitChar a = Nat.digitChar b → a = b := by
  decide

theorem map_digitChar_inj :
    ∀ l1 l2 : List Nat, (∀ d ∈ l1, d < 10) → (∀ d ∈ l2, d < 10) →
      l1.map Nat.digitChar = l2.map Nat.digitChar → l1 = l2 := by
  intro l1
  induction l1 with
  | nil =>
    intro l2 _ _ h
    cases l2 with
    | nil => rfl
    | cons b t2 => simp at h
  | cons a t ih =>
    intro l2 h1 h2 h
    cases l2 with
    | nil => simp at h
    | cons b t2 =>
      simp only [List.map_cons, List.cons.injEq] at h
      have hab : a = b :=
        digitChar_inj_lt10 a (h1 a (by simp)) b (h2 b (by simp)) h.1
      have ht : t = t2 :=
        ih t2 (fun d hd => h1 d (by simp [hd]))
          (fun d hd => h2 d (by simp [hd])) h.2
      rw [hab, ht]

theorem digits_rendering_ne_zero_case (b : Nat) (hb : b ≠ 0) :
    ((Nat.digits 10 b).map Nat.digitChar).reverse ≠ ['0'] := by
  intro h
  have h2 : (Nat.digits 10 b).map Nat.digitChar = ['0'] := by
    have hr := congrArg List.reverse h
    simpa using hr
  cases hds : Nat.digits 10 b with
  | nil => rw [hds] at h2; simp at h2
  | cons d t =>
    rw [hds] at h2
    simp only [List.map_cons, List.cons.injEq, List.map_eq_nil_iff] at h2
    have hd10 : d < 10 :=
      Nat.digits_lt_base (by norm_num) (by rw [hds]; simp)
    have hd0 : d = 0 := by
      have : Nat.digitChar d = Nat.digitChar 0 := h2.1
      exact digitChar_inj_lt10 d hd10 0 (by norm_num) this
    have hds0 : Nat.digits 10 b = [0] := by rw [hds, h2.2, hd0]
    have hb0 : b = 0 := by
      have := Nat.ofDigits_digits 10 b
      rw [hds0] at this
      simpa [Nat.ofDigits] using this.symm
    exact hb hb0

theorem pyStrNat_injective : Function.Injective pyStrNat := by
  intro a b h
  have hdata : (pyStrNat a).data = (pyStrNat b).data := by rw [h]
  rw [pyStrNat_data, pyStrNat_data] at hdata
  by_cases ha : a = 0 <;> by_cases hb : b = 0
  · rw [ha, hb]
  · exfalso
    apply digits_rendering_ne_zero_case b hb
    rw [if_pos ha, if_neg hb] at hdata
    exact hdata.symm
  · exfalso
    apply digits_rendering_ne_zero_case a ha
    rw [if_neg ha, if_pos hb] at hdata
    exact hdata
  · rw [if_neg ha, if_neg hb] at hdata
    have hmap : (Nat.digits 10 a).map Nat.digitChar
        = (Nat.digits 10 b).map Nat.digitChar := List.reverse_inj.mp hdata
    have hdig : Nat.digits 10 a = Nat.digits 10 b :=
      map_digitChar_inj _ _
        (fun d hd => Nat.digits_lt_base (by norm_num) hd)
        (fun d hd => Nat.digits_lt_base (by norm_num) hd) hmap
    have := Nat.ofDigits_digits 10 a
    rw [hdig, Nat.ofDigits_digits] at this
    exact this.symm

/-- Calls that main issues to the external PBS script builder object. -/
inductive PBSCall where
  | addCommands : List String → PBSCall
  | save : String → PBSCall
  | clearCommands : PBSCall
deriving DecidableEq

/-- Destination script path for group index i, from main:
os.path.join(path_job_commands, job_commands_ + str(i) + .sh). -/
def job_script_path (path_job_commands : String) (i : Nat) : String :=
  pathJoin path_job_commands ("job_commands_" ++ pyStrNat i ++ ".sh")

/-- Script generation loop of main (lines 86-90): for each enumerated group,
call pbs.add_commands(*commands_per_file), pbs.save(qsub_filename) and
pbs.clear_commands(), in that order, then continue with the next index. -/
def generateScripts (path_job_commands : String) :
    Nat → List (List String) → List PBSCall
  | _, [] => []
  | i, group :: rest =>
    PBSCall.addCommands group
      :: PBSCall.save (job_script_path path_job_commands i)
      :: PBSCall.clearCommands
      :: generateScripts path_job_commands (i + 1) rest

theorem job_script_path_injective (dir : String) :
    Function.Injective (job_script_path dir) := by
  intro i j h
  have hdata : (job_script_path dir i).data
      = (job_script_path dir j).data := by rw [h]
  simp only [job_script_path, pathJoin, String.data_append,
    List.append_assoc] at hdata
  have h1 := List.append_cancel_left hdata
  have h2 := List.append_cancel_left h1
  have h3 := List.append_cancel_left h2
  have h4 := List.append_cancel_right h3
  exact pyStrNat_injective (String.ext h4)

theorem generateScripts_eq (dir : String) :
    ∀ (groups : List (List String)) (i : Nat),
      generateScripts dir i groups
        = ((groups.zip ((List.range groups.length).map
              (fun k => job_script_path dir (i + k)))).map
            (fun gp => [PBSCall.addCommands gp.1, PBSCall.save gp.2,
                        PBSCall.clearCommands])).flatten := by
  intro groups
  induction groups with
  | nil => intro i; rfl
  | cons g rest ih =>
    intro i
    have hshift : (List.range rest.length).map
          ((fun k => job_script_path dir (i + k)) ∘ Nat.succ)
        = (List.range rest.length).map
            (fun k => job_script_path dir (i + 1 + k)) := by
      apply List.map_congr_left
      intro a _
      simp only [Function.comp_apply]
      congr 1
      omega
    simp only [generateScripts, List.length_cons, List.range_succ_eq_map,
      List.map_cons, List.map_map, hshift, List.zip_cons_cons,
      List.flatten_cons, Nat.add_zero]
    rw [ih (i + 1)]
    rfl

/-- Claim C8 (confirmed): for every list of JobGroups the script builder
receives, per group and in input order, exactly the call sequence
add_commands(*group), save(path), clear_commands(), with a path per group
and all destination script paths pairwise distinct. -/
theorem generate_scripts_call_sequence (groups : List (List String))
    (dir : String) :
    ∃ paths : List String,
      paths.length = groups.length ∧ paths.Nodup ∧
      generateScripts dir 0 groups
        = ((groups.zip paths).map
            (fun gp => [PBSCall.addCommands gp.1, PBSCall.save gp.2,
                        PBSCall.clearCommands])).flatten := by
  refine ⟨(List.range groups.length).map (job_script_path dir), by simp,
    List.Nodup.map (job_script_path_injective dir)
      (List.nodup_range groups.length), ?_⟩
  rw [generateScripts_eq dir groups 0]
  congr 1
  simp

/-- Python slice s[:k] on a list of characters: for k >= 0 take the first k
elements (clamped to the length), for k < 0 take all but the last -k
elements (clamped to zero). -/
def pySliceTo (s : List Char) (k : Int) : List Char :=
  s.take (if k < 0 then ((s.length : Int) + k).toNat else k.toNat)

/-- utils.jobname_generator on jobname and the decimal form of the job id:
when len(jobname) + len(job_id) exceeds 63 the jobname is cropped to
jobname[:63 - len(job_id)] before the two are joined by an underscore. -/
def jobname_generator (jobname job_id : List Char) : List Char :=
  if jobname.length + job_id.length > 63 then
    pySliceTo jobname (63 - (job_id.length : Int)) ++ '_' :: job_id
  else
    jobname ++ '_' :: job_id

/-- Claim C9 (confirmed): whenever the string form of the job id has at most
63 characters, jobname_generator returns a string of at most 64 characters
that ends with an underscore followed by the job id. -/
theorem jobname_generator_length_suffix (jobname job_id : List Char)
    (h : job_id.length ≤ 63) :
    (jobname_generator jobname job_id).length ≤ 64 ∧
    ∃ p, jobname_generator jobname job_id = p ++ '_' :: job_id := by
  unfold jobname_generator
  by_cases hc : jobname.length + job_id.length > 63
  · rw [if_pos hc]
    refine ⟨?_, pySliceTo jobname _, rfl⟩
    rw [List.length_append, List.length_cons]
    have htake : (pySliceTo jobname (63 - (job_id.length : Int))).length
        ≤ ((63 : Int) - (job_id.length : Int)).toNat := by
      have hnn : ¬ ((63 : Int) - (job_id.length : Int) < 0) := by omega
      simp only [pySliceTo, if_neg hnn]
      exact List.length_take_le _ _
    have hv : ((63 : Int) - (job_id.length : Int)).toNat
        = 63 - job_id.length := by omega
    omega
  · rw [if_neg hc]
    refine ⟨?_, jobname, rfl⟩
    rw [List.length_append, List.length_cons]
    omega

/-- Witness for C9 at a concrete input. -/
theorem jobname_generator_length_suffix_witness :
    (jobname_generator (List.replicate 70 'j') ['4', '2']).length ≤ 64 ∧
    ∃ p, jobname_generator (List.replicate 70 'j') ['4', '2']
      = p ++ '_' :: ['4', '2'] :=
  jobname_generator_length_suffix (List.replicate 70 'j') ['4', '2']
    (by decide)

end SmartDispatch
